import Mathlib

/-!
Shallow embedding of `src/index.js` (NoteMagazineScraper): the
fetch-resolve-materialize pipeline.  The HTTP transport is an injected
capability, modelled as a function from request index (or page number) to an
outcome; the filesystem is an explicit `World` value.  Machine behaviour such
as JavaScript truthiness (`""`, `null`, `undefined` are falsy) is modelled
with `Option String` guards that also test for the empty string.
-/

namespace NoteScraper

/-! ### JavaScript string primitives -/

/-- JS `\s` (and `trim`) whitespace class: WhiteSpace ∪ LineTerminator. -/
def jsWhitespace (c : Char) : Bool :=
  c == ' ' || c == '\t' || c == '\n' || c == '\r' || c == '\x0b' || c == '\x0c' ||
  c == '\u00A0' || c == '\u1680' || c == '\u2000' || c == '\u2001' || c == '\u2002' ||
  c == '\u2003' || c == '\u2004' || c == '\u2005' || c == '\u2006' || c == '\u2007' ||
  c == '\u2008' || c == '\u2009' || c == '\u200A' || c == '\u2028' || c == '\u2029' ||
  c == '\u202F' || c == '\u205F' || c == '\u3000' || c == '\uFEFF'

/-- Does `l` start with `p` (JS `String.prototype.startsWith`)? -/
def startsWithList : List Char → List Char → Bool
  | _, [] => true
  | [], _ :: _ => false
  | c :: cs, p :: ps => c == p && startsWithList cs ps

/-- Does `l` contain `sub` as a contiguous substring (JS `String.prototype.includes`)? -/
def containsSub : List Char → List Char → Bool
  | [], sub => startsWithList [] sub
  | c :: r, sub => startsWithList (c :: r) sub || containsSub r sub

/-- JS `String.prototype.padStart(n, c)`: left-pad to length `n`. -/
def padStartList (l : List Char) (n : Nat) (c : Char) : List Char :=
  List.replicate (n - l.length) c ++ l

/-- UTF-8 bytes of one character (as `Nat`s below 256). -/
def utf8Bytes (c : Char) : List Nat :=
  let n := c.toNat
  if n < 0x80 then [n]
  else if n < 0x800 then [0xC0 ||| (n >>> 6), 0x80 ||| (n &&& 0x3F)]
  else if n < 0x10000 then
    [0xE0 ||| (n >>> 12), 0x80 ||| ((n >>> 6) &&& 0x3F), 0x80 ||| (n &&& 0x3F)]
  else
    [0xF0 ||| (n >>> 18), 0x80 ||| ((n >>> 12) &&& 0x3F),
     0x80 ||| ((n >>> 6) &&& 0x3F), 0x80 ||| (n &&& 0x3F)]

/-- Uppercase hex digit for a value below 16. -/
def hexDigitChar (n : Nat) : Char :=
  if n < 10 then Char.ofNat ('0'.toNat + n) else Char.ofNat ('A'.toNat + (n - 10))

/-- Characters `encodeURIComponent` leaves unescaped. -/
def uriUnreserved (c : Char) : Bool :=
  c.isAlpha || c.isDigit ||
  c == '-' || c == '_' || c == '.' || c == '!' || c == '~' || c == '*' ||
  c == '(' || c == ')' || c == '\''

/-- JS `encodeURIComponent`: percent-encode every UTF-8 byte of each reserved
character, uppercase hex. -/
def encodeURIComponent (s : String) : String :=
  String.mk (s.data.flatMap fun c =>
    if uriUnreserved c then [c]
    else (utf8Bytes c).flatMap fun b => ['%', hexDigitChar (b / 16), hexDigitChar (b % 16)])

/-- Split a character list on a separator character (JS `String.prototype.split`). -/
def splitOnChar (sep : Char) : List Char → List (List Char)
  | [] => [[]]
  | c :: r =>
    if c == sep then [] :: splitOnChar sep r
    else
      match splitOnChar sep r with
      | h :: t => (c :: h) :: t
      | [] => [[c]]

/-- `new URLSearchParams(s).get(key)`: strip one leading `?`, split on `&`,
split each piece at its first `=` (a piece with no `=` has value `""`), return
the first value whose key matches.  Percent-decoding and `+`-to-space
translation are omitted: no string this program passes in contains `%` or `+`. -/
def searchParamsGet (s key : String) : Option String :=
  let body := match s.data with
    | '?' :: rest => rest
    | l => l
  (splitOnChar '&' body).findSome? fun p =>
    if p = [] then none
    else if p.takeWhile (fun c => !(c == '=')) = key.data then
      match p.dropWhile (fun c => !(c == '=')) with
      | _ :: v => some (String.mk v)
      | [] => some ""
    else none

/-! ### IndexPaginator (`getMagazineArticles`, src/index.js lines 23-84) -/

/-- One entry of `data.data.section.contents`.  `note_url` and `key` are
`Option`s; JS truthiness additionally treats `""` as absent, which the
consumer tests explicitly. -/
structure ContentEntry where
  note_url : Option String
  key : Option String
deriving DecidableEq

/-- Decoded page body.  The JS guard `data.data && data.data.section &&
data.data.section.contents` collapses three levels of presence into one
`Option`; `is_last_page` models the truthiness of `data.is_last_page`. -/
structure PageJson where
  contents : Option (List ContentEntry)
  is_last_page : Bool
deriving DecidableEq

/-- Transport outcome for one page request: a response with a status code and
a decodable (`some`) or undecodable (`none`, `body.json()` throws) body, or a
thrown transport error. -/
inductive PageOutcome
  | resp (status : Nat) (body : Option PageJson)
  | thrown
deriving DecidableEq

/-- Lines 54-64: emit one URL per entry with a truthy `note_url`, appending
`magazine_key=<key>` with `&`/`?` chosen by whether the URL already has a
query string. -/
def entryRefs (cs : List ContentEntry) : List String :=
  cs.filterMap fun content =>
    match content.note_url with
    | none => none
    | some u =>
      if u = "" then none
      else
        match content.key with
        | none => some u
        | some k =>
          if k = "" then some u
          else some (u ++ (if containsSub u.data ['?'] then "&" else "?") ++ "magazine_key=" ++ k)

/-- The `while (!isLastPage)` loop of `getMagazineArticles`.  `fetch` is the
transport capability (page number to outcome); `fuel` bounds the number of
iterations the model unrolls, `none` meaning the loop was still running when
the fuel ran out.  A non-200 status, an undecodable body or a thrown transport
error breaks the loop; a present-but-empty contents list breaks the loop; a
missing contents list falls through to the `is_last_page` check and otherwise
advances to the next page. -/
def paginate (fetch : Nat → PageOutcome) : Nat → Nat → List String → Option (List String)
  | 0, _, _ => none
  | fuel + 1, page, acc =>
    match fetch page with
    | .thrown => some acc
    | .resp status body =>
      if status ≠ 200 then some acc
      else
        match body with
        | none => some acc
        | some data =>
          match data.contents with
          | some cs =>
            if cs.length > 0 then
              if data.is_last_page then some (acc ++ entryRefs cs)
              else paginate fetch fuel (page + 1) (acc ++ entryRefs cs)
            else some acc
          | none =>
            if data.is_last_page then some acc
            else paginate fetch fuel (page + 1) acc

/-- `getMagazineArticles`: start at page 1 with an empty accumulator. -/
def getMagazineArticles (fetch : Nat → PageOutcome) (fuel : Nat) : Option (List String) :=
  paginate fetch fuel 1 []

/-! ### MetadataResolver (`getArticleMetadata`, src/index.js lines 87-141) -/

/-- One entry of `data.data.structuredData`. -/
structure SDItem where
  atContext : Option String
  atType : Option String
  contentUrl : Option String
deriving DecidableEq

/-- The `data.data` object of a metadata response. -/
structure MetaInner where
  title : Option String
  structuredData : Option (List SDItem)
deriving DecidableEq

/-- The decoded top-level metadata JSON (`data`), whose `data` field may be
absent/falsy. -/
structure MetaJson where
  data : Option MetaInner
deriving DecidableEq

/-- Transport outcome for one metadata request (`body = none` means
`body.json()` throws). -/
inductive MetaOutcome
  | resp (status : Nat) (body : Option MetaJson)
  | thrown
deriving DecidableEq

/-- A JavaScript exception escaping `getArticleMetadata`.  The only one the
function can raise is the `ReferenceError` produced by evaluating the
undeclared identifier `noteId` in the log templates at lines 113 and 138. -/
inductive JsError
  | referenceError
deriving DecidableEq

/-- The resolved item: `{ title, images }`. -/
structure ItemRecord where
  title : String
  images : List String
deriving DecidableEq

/-- Lines 88-94: `magazineKey` extraction.  `const [queryPart] =
noteUrl.split('?')` binds element 0 of the split, i.e. the part of the URL
before the first `?`; that string is then fed to `URLSearchParams`. -/
def extractMagazineKey (noteUrl : String) : String :=
  if containsSub noteUrl.data "?magazine_key=".data then
    (searchParamsGet (String.mk (noteUrl.data.takeWhile fun c => !(c == '?'))) "magazine_key").getD ""
  else ""

/-- Line 95: the string passed to `encodeURIComponent` —
`` `${noteUrl}?magazine_key=${magazineKey}` `` with the FULL original URL. -/
def metadataKeyArg (noteUrl : String) : String :=
  noteUrl ++ "?magazine_key=" ++ extractMagazineKey noteUrl

/-- Line 97: the metadata endpoint URL. -/
def metadataUrl (noteUrl : String) : String :=
  "https://note.com/api/v2/metadata/" ++ encodeURIComponent (metadataKeyArg noteUrl)

/-- Lines 126-134: collect `contentUrl` of every structured-data entry whose
`@context`/`@type` mark it as an image object. -/
def extractImages (sd : List SDItem) : List String :=
  sd.filterMap fun item =>
    if item.atContext = some "https://schema.org/" ∧ item.atType = some "ImageObject" then
      match item.contentUrl with
      | some u => if u = "" then none else some u
      | none => none
    else none

/-- `getArticleMetadata`.  On a non-200 status, line 113's template literal
evaluates the undeclared `noteId` and throws a `ReferenceError` before the
sentinel return at line 114; the `catch` at line 137 then rethrows the same
`ReferenceError` from line 138's template.  An undecodable body or a thrown
transport error lands in the same `catch` and rethrows likewise.  Only the
status-200, decodable path returns normally. -/
def getArticleMetadata (noteUrl : String) (outcome : MetaOutcome) : Except JsError ItemRecord :=
  let _ := metadataUrl noteUrl
  match outcome with
  | .thrown => .error .referenceError
  | .resp status body =>
    if status ≠ 200 then .error .referenceError
    else
      match body with
      | none => .error .referenceError
      | some d =>
        match d.data with
        | none => .ok ⟨"Untitled", []⟩
        | some inner =>
          let title := match inner.title with
            | some t => if t = "" then "Untitled" else t
            | none => "Untitled"
          let images := match inner.structuredData with
            | some sd => extractImages sd
            | none => []
          .ok ⟨title, images⟩

/-! ### AssetFetcher (`downloadImage`, src/index.js lines 144-180) -/

/-- Transport outcome for one image request: a response (status plus body
bytes, read by `body.arrayBuffer()`) or a thrown transport error. -/
inductive DlOutcome
  | resp (status : Nat) (body : List Nat)
  | thrown
deriving DecidableEq

/-- The filesystem plus a cross-call request counter: `files` maps existing
paths to their bytes, `reqs` counts the `request(...)` calls made so far. -/
structure World where
  files : List (String × List Nat)
  reqs : Nat
deriving DecidableEq

/-- `existsSync`. -/
def fileExists (w : World) (filePath : String) : Bool :=
  w.files.any fun f => f.1 == filePath

/-- An attempt that counts as failed: a thrown transport error or a non-200
status (lines 161-165, 170-177). -/
def isFailedOutcome : DlOutcome → Bool
  | .resp status _ => status != 200
  | .thrown => true

/-- The `for (let i = 0; i < retries; i++)` loop of `downloadImage`, with `n`
remaining attempts.  `net` maps the run's global request index to the
transport outcome of that request.  A 200 response writes the body to
`filePath` and returns `true`; a failed attempt falls through to the next one,
and running out of attempts (the `i === retries - 1` early returns together
with line 179) yields `false`. -/
def dlAttempts (net : Nat → DlOutcome) (filePath : String) : Nat → World → Bool × World
  | 0, w => (false, w)
  | n + 1, w =>
    match net w.reqs with
    | .resp status body =>
      if status = 200 then (true, ⟨(filePath, body) :: w.files, w.reqs + 1⟩)
      else dlAttempts net filePath n ⟨w.files, w.reqs + 1⟩
    | .thrown => dlAttempts net filePath n ⟨w.files, w.reqs + 1⟩

/-- `downloadImage(url, filePath, retries = 3)`: skip with success when the
destination already exists (lines 146-148), otherwise run the attempt loop. -/
def downloadImage (net : Nat → DlOutcome) (url filePath : String) (retries : Nat := 3)
    (w : World) : Bool × World :=
  let _ := url
  if fileExists w filePath then (true, w)
  else dlAttempts net filePath retries w

/-! ### NameSanitizer (`sanitizeFolderName`, src/index.js lines 246-278) -/

/-- The characters replaced by `_` in default-mode sanitization. -/
def replaceBadChar (c : Char) : Char :=
  if c == '<' || c == '>' || c == ':' || c == '"' || c == '/' || c == '\\' ||
     c == '|' || c == '?' || c == '*' then '_' else c

/-- `replace(/\s+/g, ' ')`: collapse each maximal whitespace run to one space.
`prevWs` records whether the previous character belonged to a run. -/
def collapseWsAux : Bool → List Char → List Char
  | _, [] => []
  | prevWs, c :: r =>
    if jsWhitespace c then
      if prevWs then collapseWsAux true r else ' ' :: collapseWsAux true r
    else c :: collapseWsAux false r

/-- JS `String.prototype.trim`. -/
def trimJs (l : List Char) : List Char :=
  ((l.dropWhile jsWhitespace).reverse.dropWhile jsWhitespace).reverse

/-- Line 273/277: `name.replace(/[<>:"\/\\|?*]/g, '_').replace(/\s+/g, ' ').trim()`. -/
def defaultSanitize (name : String) : String :=
  String.mk (trimJs (collapseWsAux false (name.data.map replaceBadChar)))

/-- Match `\d+(?:\.\d+)?` followed by the literal `unit` at the head of `l`,
returning the number's characters.  `\d+` is greedy and shrinking it can never
help (the character after a shortened digit run is a digit, which is neither
`.` nor a unit), so the only backtracking the regex performs is dropping the
optional decimal part — and that fallback can never succeed either, because
after a matched `\.\d+` prefix the next character would have to be both `.`
and the unit. -/
def matchNumUnit (l : List Char) (unit : Char) : Option (List Char) :=
  if l.takeWhile Char.isDigit = [] then none
  else
    match l.dropWhile Char.isDigit with
    | '.' :: r2 =>
      if r2.takeWhile Char.isDigit ≠ [] ∧
         (r2.dropWhile Char.isDigit).head? = some unit then
        some (l.takeWhile Char.isDigit ++ '.' :: r2.takeWhile Char.isDigit)
      else none
    | c :: _ => if c = unit then some (l.takeWhile Char.isDigit) else none
    | [] => none

/-- One regex pattern `第?(\d+(?:\.\d+)?)unit` applied at a fixed position:
on success returns (`match[0]`, `match[1]`). -/
def tryAt : Bool → Char → List Char → Option (List Char × List Char)
  | true, unit, l =>
    if l.head? = some '第' then
      (matchNumUnit l.tail unit).map fun n => ('第' :: (n ++ [unit]), n)
    else none
  | false, unit, l => (matchNumUnit l unit).map fun n => (n ++ [unit], n)

/-- `pattern.exec(name)`: leftmost match of one pattern. -/
def execScan (dai : Bool) (unit : Char) : List Char → Option (List Char × List Char)
  | [] => none
  | c :: r =>
    match tryAt dai unit (c :: r) with
    | some m => some m
    | none => execScan dai unit r

/-- The four patterns of lines 249-254 in source order:
`第N巻`, `第N話`, `N巻`, `N話`. -/
def volPatterns : List (Bool × Char) := [(true, '巻'), (true, '話'), (false, '巻'), (false, '話')]

/-- The `for (const pattern of patterns)` loop: the first pattern that matches
wins. -/
def firstVolMatch (l : List Char) : Option (List Char × List Char) :=
  volPatterns.findSome? fun p => execScan p.1 p.2 l

/-- `sanitizeFolderName`.  The run-level configuration (`volumeOnly` flag and
`volumeDigits` width, read from module scope in the source) is passed
explicitly.  In volume-only mode the first matching pattern yields
`match[0]`/`match[1]`; the prefix is `第` iff `match[0].startsWith('第')`, the
suffix is `巻` iff `match[0].includes('巻')` (else `話`); a number containing
`.` is kept verbatim, otherwise it is `padStart(volumeDigits, '0')`-ed. -/
def sanitizeFolderName (volumeOnly : Bool) (volumeDigits : Nat) (name : String) : String :=
  if volumeOnly then
    match firstVolMatch name.data with
    | some m =>
      let number := m.2
      let pre : List Char := if startsWithList m.1 ['第'] then ['第'] else []
      let suf : List Char := if containsSub m.1 ['巻'] then ['巻'] else ['話']
      if number.contains '.' then String.mk (pre ++ number ++ suf)
      else String.mk (pre ++ padStartList number volumeDigits '0' ++ suf)
    | none => defaultSanitize name
  else defaultSanitize name

/-- The volume-only behaviour as the specification words it: try `第N巻`,
`第N話`, `N巻`, `N話` in that priority order; on the first match return
`<pre><N><suf>` where `pre` is `第` exactly for the `第`-marked patterns and
`suf` is the matched unit, with `N` verbatim when it contains a decimal point
and zero-padded to the configured minimum width otherwise; with no match fall
back to default-mode sanitization. -/
def sanitizeVolumeSpec (volumeDigits : Nat) (name : String) : String :=
  match execScan true '巻' name.data with
  | some m => String.mk ('第' :: (if m.2.contains '.' then m.2 else padStartList m.2 volumeDigits '0') ++ ['巻'])
  | none =>
    match execScan true '話' name.data with
    | some m => String.mk ('第' :: (if m.2.contains '.' then m.2 else padStartList m.2 volumeDigits '0') ++ ['話'])
    | none =>
      match execScan false '巻' name.data with
      | some m => String.mk ((if m.2.contains '.' then m.2 else padStartList m.2 volumeDigits '0') ++ ['巻'])
      | none =>
        match execScan false '話' name.data with
        | some m => String.mk ((if m.2.contains '.' then m.2 else padStartList m.2 volumeDigits '0') ++ ['話'])
        | none => defaultSanitize name

/-! ### MaterializationStrategy and Orchestrator (`main`, src/index.js lines 281-404) -/

/-- One element of `articleData`. -/
structure ArticleItem where
  title : String
  images : List String
deriving DecidableEq

/-- `(index + 1).toString().padStart(3, '0') + '.jpg'`. -/
def seqFileName (index : Nat) : String :=
  String.mk (padStartList (toString (index + 1)).data 3 '0') ++ ".jpg"

/-- `path.join` restricted to the shapes this program produces: a nonempty
normalized left part and a right part free of separators and dot segments
(`join(a, '') = a` because join drops empty segments). -/
def pathJoin (a b : String) : String :=
  if b = "" then a else a ++ "/" ++ b

/-- Directory-mode inner loop (lines 386-398): one iteration per image, the
filename computed from the loop index, recording the files whose
`downloadImage` reported success.  `succ i` abstracts the success of the
fetch of the asset at original index `i`. -/
def dirLoop (succ : Nat → Bool) : Nat → List String → List (String × String)
  | _, [] => []
  | i, url :: rest =>
    if succ i then (seqFileName i, url) :: dirLoop succ (i + 1) rest
    else dirLoop succ (i + 1) rest

/-- ZIP-mode `addNextImage` recursion (lines 351-372): starting from
`imageIndex`, append an entry named from the index for every successful fetch,
always advancing the index, finalizing once the index reaches the end. -/
def addNextImage (succ : Nat → Bool) (images : List String) (imageIndex : Nat) :
    List (String × String) :=
  if h : imageIndex < images.length then
    let rest := addNextImage succ images (imageIndex + 1)
    if succ imageIndex then (seqFileName imageIndex, images.get ⟨imageIndex, h⟩) :: rest
    else rest
  else []
termination_by images.length - imageIndex

/-- The entries both strategies are specified to produce: the successful
assets in original order, each named from its original 1-based position. -/
def expectedEntries (images : List String) (succ : Nat → Bool) : List (String × String) :=
  (images.enum.filter fun p => succ p.1).map fun p => (seqFileName p.1, p.2)

/-- Total asset count discovered before materialization begins
(`allImages.length`). -/
def totalImages (items : List ArticleItem) : Nat :=
  (items.map fun it => it.images.length).sum

/-- The `downloadedCount` increments one item contributes, in order: a
pre-existing archive in ZIP mode adds the item's full asset count at once
(lines 326-330); otherwise each successful asset fetch adds 1.  `zipEx`
abstracts `existsSync(zipPath)`, `succ` the per-asset fetch success. -/
def itemIncrements (useZip zipEx : Bool) (succ : Nat → Bool) (images : List String) : List Nat :=
  if useZip && zipEx then [images.length]
  else (List.range images.length).filterMap fun i => if succ i then some 1 else none

/-- All increments of a run, items processed in order (item index passed to
the oracles). -/
def runIncrements (useZip : Bool) (zipEx : Nat → Bool) (succ : Nat → Nat → Bool) :
    List ArticleItem → Nat → List Nat
  | [], _ => []
  | it :: rest, idx =>
    itemIncrements useZip (zipEx idx) (succ idx) it.images ++
      runIncrements useZip zipEx succ rest (idx + 1)

/-- Successive values of `downloadedCount` at each `progressBar.update`. -/
def traceFrom (c : Nat) : List Nat → List Nat
  | [] => []
  | d :: ds => (c + d) :: traceFrom (c + d) ds

/-- The whole run's `downloadedCount` trace, starting from 0. -/
def runTrace (useZip : Bool) (zipEx : Nat → Bool) (succ : Nat → Nat → Bool)
    (items : List ArticleItem) : List Nat :=
  traceFrom 0 (runIncrements useZip zipEx succ items 0)

/-- The final counter value the specification predicts: per item, the full
asset count when its archive pre-exists in ZIP mode, else the number of
successful assets. -/
def expectedFinal (useZip : Bool) (zipEx : Nat → Bool) (succ : Nat → Nat → Bool)
    (items : List ArticleItem) : Nat :=
  (items.enum.map fun p =>
    if useZip && zipEx p.1 then p.2.images.length
    else ((List.range p.2.images.length).filter (succ p.1)).length).sum

/-- Transport for the C6 witness scenario: page 1 has one entry and no
last-page flag, every later page decodes to an empty contents list. -/
def fetchC6 : Nat → PageOutcome := fun p =>
  if p = 1 then .resp 200 (some ⟨some [⟨some "u1", none⟩], false⟩)
  else .resp 200 (some ⟨some [], true⟩)

/-! ## Theorems -/

/-- C1: the claim says `getArticleMetadata` never raises and degrades every
transport failure to the sentinel record.  In the code the failure logging at
lines 113 and 138 evaluates the undeclared identifier `noteId`, so a non-200
status, an undecodable body and a thrown transport error all raise a
`ReferenceError` instead of returning the sentinel. -/
theorem c1_code_bug_eval :
    getArticleMetadata "https://note.com/n/abc" (.resp 404 none) = .error .referenceError
    ∧ getArticleMetadata "https://note.com/n/abc" (.resp 200 none) = .error .referenceError
    ∧ getArticleMetadata "https://note.com/n/abc" .thrown = .error .referenceError
    ∧ (Except.error JsError.referenceError ≠
        (Except.ok ⟨"Untitled", []⟩ : Except JsError ItemRecord)) :=
  ⟨rfl, rfl, rfl, fun h => nomatch h⟩

/-- C3: the claim says the `magazine_key` value is extracted from the URL and
the lookup key re-appends it to the bare URL with the prior query stripped.
In the code `const [queryPart] = noteUrl.split('?')` binds the part BEFORE the
query, so the extraction always yields `""`, and the full URL (prior query
included) is what gets `?magazine_key=` appended. -/
theorem c3_code_bug_eval :
    extractMagazineKey "https://note.com/n/abc?magazine_key=K" = ""
    ∧ metadataKeyArg "https://note.com/n/abc?magazine_key=K"
        = "https://note.com/n/abc?magazine_key=K?magazine_key="
    ∧ metadataUrl "https://note.com/n/abc?magazine_key=K"
        = "https://note.com/api/v2/metadata/https%3A%2F%2Fnote.com%2Fn%2Fabc%3Fmagazine_key%3DK%3Fmagazine_key%3D"
    ∧ metadataUrl "https://note.com/n/abc?magazine_key=K"
        ≠ "https://note.com/api/v2/metadata/"
          ++ encodeURIComponent "https://note.com/n/abc?magazine_key=K" :=
  ⟨by decide, by decide, by decide, by decide⟩

/-- C2 counterexample: page 2 decodes but carries no content list, yet
pagination does NOT stop there — it advances and also collects page 3's
entry, so the result is not "exactly the ContentRefs from the earlier
pages". -/
theorem c2_counterexample :
    getMagazineArticles
      (fun p =>
        if p = 1 then .resp 200 (some ⟨some [⟨some "u1", none⟩], false⟩)
        else if p = 2 then .resp 200 (some ⟨none, false⟩)
        else .resp 200 (some ⟨some [⟨some "u3", none⟩], true⟩)) 10
      = some ["u1", "u3"]
    ∧ (some ["u1", "u3"] : Option (List String)) ≠ some ["u1"] :=
  ⟨by decide, by decide⟩

/-- C2 (amended): an undecodable page body terminates pagination with the
refs collected so far; a decodable body that merely lacks the content list
does not terminate — nothing is collected from it and pagination advances to
the next page, stopping there only when the `is_last_page` flag is set. -/
theorem c2_amended_pagination (fetch : Nat → PageOutcome) (fuel page : Nat) (acc : List String) :
    (fetch page = .resp 200 none → paginate fetch (fuel + 1) page acc = some acc)
    ∧ (∀ b : PageJson, fetch page = .resp 200 (some b) → b.contents = none →
        paginate fetch (fuel + 1) page acc =
          (if b.is_last_page then some acc else paginate fetch fuel (page + 1) acc)) := by
  constructor
  · intro h
    simp [paginate, h]
  · intro b h hc
    simp [paginate, h, hc]

/-- Witness for C2's amended theorem at a concrete undecodable page. -/
theorem c2_amended_witness :
    paginate (fun _ => PageOutcome.resp 200 none) 4 1 [] = some [] :=
  (c2_amended_pagination (fun _ => PageOutcome.resp 200 none) 3 1 []).1 rfl

/-- C6: a page whose content list is present but empty terminates pagination
with the refs collected so far, whatever its `is_last_page` flag says; and a
non-empty, non-last page accumulates its refs and moves to the next page, so
the returned value is the in-order union of the preceding pages' refs. -/
theorem c6_empty_page_terminates (fetch : Nat → PageOutcome) (fuel page : Nat)
    (acc : List String) (b : PageJson) (cs : List ContentEntry) :
    (fetch page = .resp 200 (some b) → b.contents = some [] →
      paginate fetch (fuel + 1) page acc = some acc)
    ∧ (fetch page = .resp 200 (some b) → b.contents = some cs → cs ≠ [] →
        b.is_last_page = false →
        paginate fetch (fuel + 1) page acc =
          paginate fetch fuel (page + 1) (acc ++ entryRefs cs)) := by
  constructor
  · intro h hc
    simp [paginate, h, hc]
  · intro h hc hne hlast
    simp [paginate, h, hc, hlast, List.length_pos.mpr hne]

/-- Witness for C6: a two-page run — one entry on page 1, empty page 2 —
returns exactly page 1's entry. -/
theorem c6_witness : getMagazineArticles fetchC6 2 = some ["u1"] := by
  have h1 := (c6_empty_page_terminates fetchC6 1 1 []
    ⟨some [⟨some "u1", none⟩], false⟩ [⟨some "u1", none⟩]).2 rfl rfl (by decide) rfl
  have h2 := (c6_empty_page_terminates fetchC6 0 2 ([] ++ entryRefs [⟨some "u1", none⟩])
    ⟨some [], true⟩ []).1 rfl rfl
  show paginate fetchC6 2 1 [] = some ["u1"]
  rw [h1, h2]
  decide

/-- C4 counterexample: destination absent, first attempt gets HTTP 500, the
second gets 200 — the first call succeeds and the second call also succeeds,
but the two calls together perform 2 network requests, not "exactly one". -/
theorem c4_counterexample :
    downloadImage (fun k => if k = 0 then .resp 500 [] else .resp 200 [7]) "u" "p" 3 ⟨[], 0⟩
      = (true, ⟨[("p", [7])], 2⟩)
    ∧ downloadImage (fun k => if k = 0 then .resp 500 [] else .resp 200 [7]) "u" "p" 3
        ⟨[("p", [7])], 2⟩
      = (true, ⟨[("p", [7])], 2⟩)
    ∧ (2 : Nat) ≠ 1 :=
  ⟨by decide, by decide, by decide⟩

/-- C4 (amended): if the destination file already exists, `downloadImage`
returns success at once with no network request; and when the destination is
initially absent and the first attempt returns status 200, two successive
calls at the same destination perform exactly one network request between
them (the request counter rises by one in the first call and not at all in
the second) and both report success. -/
theorem c4_idempotent_amended :
    (∀ (net : Nat → DlOutcome) (url filePath : String) (retries : Nat) (w : World),
      fileExists w filePath = true → downloadImage net url filePath retries w = (true, w))
    ∧ (∀ (net : Nat → DlOutcome) (url filePath : String) (retries : Nat) (w : World)
        (body : List Nat),
        fileExists w filePath = false → net w.reqs = .resp 200 body → 0 < retries →
        downloadImage net url filePath retries w
          = (true, ⟨(filePath, body) :: w.files, w.reqs + 1⟩)
        ∧ downloadImage net url filePath retries ⟨(filePath, body) :: w.files, w.reqs + 1⟩
          = (true, ⟨(filePath, body) :: w.files, w.reqs + 1⟩)) := by
  constructor
  · intro net url filePath retries w h
    simp [downloadImage, h]
  · intro net url filePath retries w body hex hnet hr
    obtain ⟨n, rfl⟩ : ∃ n, retries = n + 1 := ⟨retries - 1, (Nat.succ_pred_eq_of_pos hr).symm⟩
    refine ⟨?_, ?_⟩
    · simp [downloadImage, hex, dlAttempts, hnet]
    · simp [downloadImage, fileExists]

/-- Witness for C4's amended theorem at a concrete transport. -/
theorem c4_witness :
    downloadImage (fun _ => DlOutcome.resp 200 [3]) "u" "p" 3 ⟨[], 0⟩
      = (true, ⟨[("p", [3])], 1⟩)
    ∧ downloadImage (fun _ => DlOutcome.resp 200 [3]) "u" "p" 3 ⟨[("p", [3])], 1⟩
      = (true, ⟨[("p", [3])], 1⟩) :=
  c4_idempotent_amended.2 (fun _ => DlOutcome.resp 200 [3]) "u" "p" 3 ⟨[], 0⟩ [3]
    rfl rfl (by decide)

/-- When every remaining attempt fails, the attempt loop performs exactly one
request per attempt and returns failure with the filesystem unchanged. -/
theorem dl_all_fail (net : Nat → DlOutcome) (filePath : String) :
    ∀ (retries : Nat) (w : World),
      (∀ k, k < retries → isFailedOutcome (net (w.reqs + k)) = true) →
      dlAttempts net filePath retries w = (false, ⟨w.files, w.reqs + retries⟩) := by
  intro retries
  induction retries with
  | zero => intro w _; simp [dlAttempts]
  | succ n ih =>
    intro w h
    have h0 : isFailedOutcome (net w.reqs) = true := by simpa using h 0 (Nat.succ_pos n)
    have hrest : ∀ k, k < n →
        isFailedOutcome (net ((⟨w.files, w.reqs + 1⟩ : World).reqs + k)) = true := by
      intro k hk
      have := h (k + 1) (Nat.succ_lt_succ hk)
      simpa [Nat.add_assoc, Nat.add_comm 1 k] using this
    cases hnet : net w.reqs with
    | resp status body =>
      have hs : status ≠ 200 := by
        intro hcontra
        rw [hnet, hcontra] at h0
        simp [isFailedOutcome] at h0
      have := ih ⟨w.files, w.reqs + 1⟩ hrest
      simp only [dlAttempts, hnet, if_neg hs, this]
      congr 2
      omega
    | thrown =>
      have := ih ⟨w.files, w.reqs + 1⟩ hrest
      simp only [dlAttempts, hnet, this]
      congr 2
      omega

/-- The attempt loop succeeds on the first 200 response: with `j` failed
attempts before it, it performs exactly `j + 1` requests, writes the body and
returns success. -/
theorem dl_first_success (net : Nat → DlOutcome) (filePath : String) (body : List Nat) :
    ∀ (j retries : Nat) (w : World), j < retries →
      (∀ k, k < j → isFailedOutcome (net (w.reqs + k)) = true) →
      net (w.reqs + j) = .resp 200 body →
      dlAttempts net filePath retries w
        = (true, ⟨(filePath, body) :: w.files, w.reqs + j + 1⟩) := by
  intro j
  induction j with
  | zero =>
    intro retries w hlt _ hnet
    obtain ⟨n, rfl⟩ : ∃ n, retries = n + 1 := ⟨retries - 1, (Nat.succ_pred_eq_of_pos hlt).symm⟩
    rw [Nat.add_zero] at hnet
    simp [dlAttempts, hnet]
  | succ j ih =>
    intro retries w hlt hfail hnet
    obtain ⟨n, rfl⟩ : ∃ n, retries = n + 1 :=
      ⟨retries - 1, (Nat.succ_pred_eq_of_pos (Nat.lt_of_le_of_lt (Nat.zero_le _) hlt)).symm⟩
    have h0 : isFailedOutcome (net w.reqs) = true := by simpa using hfail 0 (Nat.succ_pos j)
    have hrest : ∀ k, k < j →
        isFailedOutcome (net ((⟨w.files, w.reqs + 1⟩ : World).reqs + k)) = true := by
      intro k hk
      have := hfail (k + 1) (Nat.succ_lt_succ hk)
      simpa [Nat.add_assoc, Nat.add_comm 1 k] using this
    have hnet' : net ((⟨w.files, w.reqs + 1⟩ : World).reqs + j) = .resp 200 body := by
      simpa [Nat.add_assoc, Nat.add_comm 1 j] using hnet
    have hjn : j < n := Nat.lt_of_succ_lt_succ hlt
    cases hout : net w.reqs with
    | resp status b =>
      have hs : status ≠ 200 := by
        intro hcontra
        rw [hout, hcontra] at h0
        simp [isFailedOutcome] at h0
      have := ih n ⟨w.files, w.reqs + 1⟩ hjn hrest hnet'
      simp only [dlAttempts, hout, if_neg hs, this]
      congr 3
      omega
    | thrown =>
      have := ih n ⟨w.files, w.reqs + 1⟩ hjn hrest hnet'
      simp only [dlAttempts, hout, this]
      congr 3
      omega

/-- C5: with the destination absent, `downloadImage` performs exactly
`retries` request attempts and reports failure when every attempt fails
(non-200 status or transport error), and on the first attempt that returns
status 200 it writes the full body to the destination and reports success
immediately, with no further attempts. -/
theorem c5_retry_policy (net : Nat → DlOutcome) (url filePath : String) (retries : Nat)
    (w : World) (hex : fileExists w filePath = false) :
    ((∀ k, k < retries → isFailedOutcome (net (w.reqs + k)) = true) →
      downloadImage net url filePath retries w = (false, ⟨w.files, w.reqs + retries⟩))
    ∧ (∀ j body, j < retries →
        (∀ k, k < j → isFailedOutcome (net (w.reqs + k)) = true) →
        net (w.reqs + j) = .resp 200 body →
        downloadImage net url filePath retries w
          = (true, ⟨(filePath, body) :: w.files, w.reqs + j + 1⟩)) := by
  constructor
  · intro h
    simp only [downloadImage, hex, Bool.false_eq_true, if_false]
    exact dl_all_fail net filePath retries w h
  · intro j body hlt hfail hnet
    simp only [downloadImage, hex, Bool.false_eq_true, if_false]
    exact dl_first_success net filePath body j retries w hlt hfail hnet

/-- Witness for C5: three thrown attempts exhaust `retries = 3` and fail; two
failed attempts followed by a 200 succeed on the third request. -/
theorem c5_witness :
    downloadImage (fun _ => DlOutcome.thrown) "u" "p" 3 ⟨[], 0⟩ = (false, ⟨[], 3⟩)
    ∧ downloadImage (fun k => if k < 2 then DlOutcome.resp 500 [] else DlOutcome.resp 200 [9])
        "u" "p" 3 ⟨[], 0⟩ = (true, ⟨[("p", [9])], 3⟩) :=
  ⟨(c5_retry_policy (fun _ => DlOutcome.thrown) "u" "p" 3 ⟨[], 0⟩ rfl).1 (fun _ _ => rfl),
   (c5_retry_policy (fun k => if k < 2 then DlOutcome.resp 500 [] else DlOutcome.resp 200 [9])
      "u" "p" 3 ⟨[], 0⟩ rfl).2 2 [9] (by decide)
      (fun k hk => by
        have hk' : k = 0 ∨ k = 1 := by omega
        rcases hk' with rfl | rfl <;> rfl)
      rfl⟩

/-- The directory-mode loop starting at index `i` produces exactly the
successful entries of the remaining list, numbered from their original
indices. -/
theorem dirLoop_eq_enumFrom (succ : Nat → Bool) (l : List String) :
    ∀ i, dirLoop succ i l
      = ((l.enumFrom i).filter fun p => succ p.1).map fun p => (seqFileName p.1, p.2) := by
  induction l with
  | nil => intro i; simp [dirLoop]
  | cons a t ih =>
    intro i
    by_cases h : succ i
    · simp [dirLoop, h, ih (i + 1)]
    · simp [dirLoop, h, ih (i + 1)]

/-- The ZIP-mode recursion starting at `i` behaves like the directory-mode
loop over the remaining suffix. -/
theorem addNextImage_eq_dirLoop (succ : Nat → Bool) (images : List String) :
    ∀ (n i : Nat), images.length - i ≤ n →
      addNextImage succ images i = dirLoop succ i (images.drop i) := by
  intro n
  induction n with
  | zero =>
    intro i hi
    have hge : ¬ i < images.length := by omega
    have hd : images.drop i = [] := List.drop_eq_nil_of_le (by omega)
    rw [addNextImage]
    simp [hge, hd, dirLoop]
  | succ n ih =>
    intro i hi
    rw [addNextImage]
    by_cases h : i < images.length
    · have hrec := ih (i + 1) (by omega)
      have hdrop : images.drop i = images.get ⟨i, h⟩ :: images.drop (i + 1) :=
        List.drop_eq_getElem_cons h
      rw [hdrop]
      by_cases hs : succ i <;> simp [h, hs, dirLoop, hrec]
    · have hd : images.drop i = [] := List.drop_eq_nil_of_le (by omega)
      simp [h, hd, dirLoop]

/-- C8: in both materialization strategies, with `succ` describing which
asset fetches succeed, the produced entries are exactly the successful assets
in original order, each named by its original 1-based position (3-digit
zero-padded, `.jpg`) — no contiguous renumbering after a failure. -/
theorem c8_original_index_numbering (images : List String) (succ : Nat → Bool) :
    dirLoop succ 0 images = expectedEntries images succ
    ∧ addNextImage succ images 0 = expectedEntries images succ := by
  have h1 : dirLoop succ 0 images = expectedEntries images succ := by
    simpa [expectedEntries, List.enum] using dirLoop_eq_enumFrom succ images 0
  refine ⟨h1, ?_⟩
  rw [addNextImage_eq_dirLoop succ images images.length 0 (by omega)]
  simpa using h1

/-- The counter trace is a `≤`-chain from its starting value. -/
theorem traceFrom_chain (ds : List Nat) : ∀ c, List.Chain (· ≤ ·) c (traceFrom c ds) := by
  induction ds with
  | nil => intro c; simp [traceFrom]
  | cons d t ih =>
    intro c
    exact List.Chain.cons (Nat.le_add_right c d) (ih (c + d))

/-- Every value of the counter trace is bounded by start plus the sum of the
increments. -/
theorem traceFrom_le_sum (ds : List Nat) :
    ∀ c x, x ∈ traceFrom c ds → x ≤ c + ds.sum := by
  induction ds with
  | nil => intro c x hx; simp [traceFrom] at hx
  | cons d t ih =>
    intro c x hx
    rw [traceFrom] at hx
    simp only [List.sum_cons]
    rcases List.mem_cons.mp hx with rfl | hx'
    · omega
    · have := ih (c + d) x hx'
      omega

/-- The last value of the counter trace is start plus the sum of the
increments. -/
theorem traceFrom_getLastD (ds : List Nat) :
    ∀ c, (traceFrom c ds).getLastD c = c + ds.sum := by
  induction ds with
  | nil => intro c; simp [traceFrom]
  | cons d t ih =>
    intro c
    have h := ih (c + d)
    rw [traceFrom, List.getLastD_cons, h, List.sum_cons]
    omega

/-- Summing `1` over the hits of a predicate counts the hits. -/
theorem sum_filterMap_ite_one (p : Nat → Bool) :
    ∀ l : List Nat, (l.filterMap fun i => if p i then some (1 : Nat) else none).sum
      = (l.filter p).length := by
  intro l
  induction l with
  | nil => rfl
  | cons a t ih =>
    by_cases h : p a <;> simp [h, ih, Nat.add_comm]

/-- One item's contribution to the counter. -/
theorem itemIncrements_sum (u e : Bool) (succ : Nat → Bool) (images : List String) :
    (itemIncrements u e succ images).sum
      = if u && e then images.length
        else ((List.range images.length).filter succ).length := by
  by_cases h : (u && e) = true <;>
    simp [itemIncrements, h, sum_filterMap_ite_one]

/-- One item's contribution never exceeds its asset count. -/
theorem itemIncrements_sum_le (u e : Bool) (succ : Nat → Bool) (images : List String) :
    (itemIncrements u e succ images).sum ≤ images.length := by
  rw [itemIncrements_sum]
  by_cases h : (u && e) = true
  · simp [h]
  · simp only [h, if_false]
    calc ((List.range images.length).filter succ).length
        ≤ (List.range images.length).length := List.length_filter_le _ _
      _ = images.length := List.length_range _

/-- A whole run's increments sum to at most the total discovered asset
count. -/
theorem runIncrements_sum_le (u : Bool) (zipEx : Nat → Bool) (succ : Nat → Nat → Bool) :
    ∀ (items : List ArticleItem) (idx : Nat),
      (runIncrements u zipEx succ items idx).sum ≤ totalImages items := by
  intro items
  induction items with
  | nil => intro idx; simp [runIncrements, totalImages]
  | cons it rest ih =>
    intro idx
    have h1 := itemIncrements_sum_le u (zipEx idx) (succ idx) it.images
    have h2 := ih (idx + 1)
    simp only [runIncrements, List.sum_append, totalImages, List.map_cons, List.sum_cons]
    simp only [totalImages] at h2
    omega

/-- A whole run's increments sum to exactly the per-item totals the
specification predicts. -/
theorem runIncrements_sum_eq (u : Bool) (zipEx : Nat → Bool) (succ : Nat → Nat → Bool) :
    ∀ (items : List ArticleItem) (idx : Nat),
      (runIncrements u zipEx succ items idx).sum
        = ((items.enumFrom idx).map fun p =>
            if u && zipEx p.1 then p.2.images.length
            else ((List.range p.2.images.length).filter (succ p.1)).length).sum := by
  intro items
  induction items with
  | nil => intro idx; simp [runIncrements]
  | cons it rest ih =>
    intro idx
    simp [runIncrements, List.sum_append, itemIncrements_sum, ih (idx + 1)]

/-- C9: throughout a run `downloadedCount` is monotonically non-decreasing
from 0, never exceeds the total asset count discovered before materialization
began, and its final value is exactly the sum over items of the successful
asset count (or the item's full asset count when its archive already existed
in ZIP mode) — it is increased by nothing else. -/
theorem c9_progress_counter (useZip : Bool) (zipEx : Nat → Bool) (succ : Nat → Nat → Bool)
    (items : List ArticleItem) :
    List.Chain (· ≤ ·) 0 (runTrace useZip zipEx succ items)
    ∧ (∀ x ∈ runTrace useZip zipEx succ items, x ≤ totalImages items)
    ∧ (runTrace useZip zipEx succ items).getLastD 0
        = expectedFinal useZip zipEx succ items := by
  refine ⟨traceFrom_chain _ 0, ?_, ?_⟩
  · intro x hx
    have h1 := traceFrom_le_sum (runIncrements useZip zipEx succ items 0) 0 x hx
    have h2 := runIncrements_sum_le useZip zipEx succ items 0
    omega
  · have h1 := traceFrom_getLastD (runIncrements useZip zipEx succ items 0) 0
    have h2 := runIncrements_sum_eq useZip zipEx succ items 0
    simp only [runTrace, h1, h2, expectedFinal, List.enum]
    omega

/-- Witness for C9 at a concrete one-item run whose archive pre-exists. -/
theorem c9_witness : (2 : Nat) ≤ totalImages [⟨"t", ["u1", "u2"]⟩] :=
  (c9_progress_counter true (fun _ => true) (fun _ _ => true) [⟨"t", ["u1", "u2"]⟩]).2.1
    2 (by decide)

/-- Matching `[]` as a needle always succeeds. -/
theorem startsWithList_nil (l : List Char) : startsWithList l [] = true := by
  cases l <;> rfl

/-- A one-character needle is contained iff the character is a member. -/
theorem containsSub_single_iff (l : List Char) (c : Char) :
    containsSub l [c] = true ↔ c ∈ l := by
  induction l with
  | nil => simp [containsSub, startsWithList]
  | cons a t ih =>
    rw [containsSub]
    simp only [startsWithList, startsWithList_nil, Bool.and_true, Bool.or_eq_true,
      beq_iff_eq, ih, List.mem_cons]
    exact or_congr_left eq_comm

/-- A successful number-unit match yields a nonempty digit-or-dot group that
starts with a digit. -/
theorem matchNumUnit_shape (l : List Char) (unit : Char) (n : List Char)
    (h : matchNumUnit l unit = some n) :
    n ≠ [] ∧ (∃ c, n.head? = some c ∧ c.isDigit = true)
    ∧ (∀ c ∈ n, c.isDigit = true ∨ c = '.') := by
  have hdig : ∀ c ∈ l.takeWhile Char.isDigit, c.isDigit = true :=
    fun c hc => List.mem_takeWhile_imp hc
  unfold matchNumUnit at h
  split at h
  · exact absurd h (by simp)
  · rename_i hne
    have hhead : ∃ c, (l.takeWhile Char.isDigit).head? = some c ∧ c.isDigit = true := by
      cases htake : l.takeWhile Char.isDigit with
      | nil => exact absurd htake hne
      | cons a as =>
        exact ⟨a, rfl, hdig a (htake ▸ List.mem_cons_self a as)⟩
    split at h
    · rename_i r2 hdrop
      have hdig2 : ∀ c ∈ r2.takeWhile Char.isDigit, c.isDigit = true :=
        fun c hc => List.mem_takeWhile_imp hc
      split at h
      · injection h with h
        subst h
        refine ⟨by simp, ?_, ?_⟩
        · cases htake : l.takeWhile Char.isDigit with
          | nil => exact absurd htake hne
          | cons a as =>
            exact ⟨a, rfl, hdig a (htake ▸ List.mem_cons_self a as)⟩
        · intro c hc
          rcases List.mem_append.mp hc with h1 | h2
          · exact Or.inl (hdig c h1)
          · rcases List.mem_cons.mp h2 with rfl | h3
            · exact Or.inr rfl
            · exact Or.inl (hdig2 c h3)
      · exact absurd h (by simp)
    · rename_i c rest hdrop
      split at h
      · injection h with h
        subst h
        exact ⟨hne, hhead, fun c hc => Or.inl (hdig c hc)⟩
      · exact absurd h (by simp)
    · exact absurd h (by simp)

/-- A successful single-position pattern match has `match[0]` =
`第? ++ match[1] ++ unit` with the group shaped as `matchNumUnit` produces. -/
theorem tryAt_shape (dai : Bool) (unit : Char) (l : List Char) (m : List Char × List Char)
    (h : tryAt dai unit l = some m) :
    m.1 = (if dai then ['第'] else []) ++ (m.2 ++ [unit])
    ∧ m.2 ≠ [] ∧ (∃ c, m.2.head? = some c ∧ c.isDigit = true)
    ∧ (∀ c ∈ m.2, c.isDigit = true ∨ c = '.') := by
  cases dai with
  | true =>
    rw [tryAt] at h
    by_cases hc : l.head? = some '第'
    · rw [if_pos hc] at h
      cases hmn : matchNumUnit l.tail unit with
      | none => rw [hmn] at h; exact absurd h (by simp)
      | some n =>
        rw [hmn] at h
        injection h with h
        subst h
        obtain ⟨h1, h2, h3⟩ := matchNumUnit_shape l.tail unit n hmn
        exact ⟨by simp, h1, h2, h3⟩
    · rw [if_neg hc] at h
      exact absurd h (by simp)
  | false =>
    rw [tryAt] at h
    cases hmn : matchNumUnit l unit with
    | none => rw [hmn] at h; exact absurd h (by simp)
    | some n =>
      rw [hmn] at h
      injection h with h
      subst h
      obtain ⟨h1, h2, h3⟩ := matchNumUnit_shape l unit n hmn
      exact ⟨by simp, h1, h2, h3⟩

/-- The leftmost-match scan inherits the single-position shape. -/
theorem execScan_shape (dai : Bool) (unit : Char) :
    ∀ (l : List Char) (m : List Char × List Char), execScan dai unit l = some m →
      m.1 = (if dai then ['第'] else []) ++ (m.2 ++ [unit])
      ∧ m.2 ≠ [] ∧ (∃ c, m.2.head? = some c ∧ c.isDigit = true)
      ∧ (∀ c ∈ m.2, c.isDigit = true ∨ c = '.') := by
  intro l
  induction l with
  | nil => intro m h; exact absurd h (by simp [execScan])
  | cons c r ih =>
    intro m h
    rw [execScan] at h
    cases htry : tryAt dai unit (c :: r) with
    | some m' =>
      rw [htry] at h
      injection h with h
      exact h ▸ tryAt_shape dai unit (c :: r) m' htry
    | none =>
      rw [htry] at h
      exact ih m h

/-- A group starting with a digit never starts with `第`. -/
theorem startsWith_nodai (m2 : List Char) (unit : Char) (hne : m2 ≠ [])
    (hhead : ∃ c, m2.head? = some c ∧ c.isDigit = true) :
    startsWithList (m2 ++ [unit]) ['第'] = false := by
  cases m2 with
  | nil => exact absurd rfl hne
  | cons a tl =>
    obtain ⟨c0, hch, hcd⟩ := hhead
    injection hch with hch
    subst hch
    have hne' : ¬ a = '第' := fun hc => by
      rw [hc] at hcd
      exact absurd hcd (by decide)
    simp [startsWithList, startsWithList_nil, hne']

/-- `第`-prefixed `match[0]` starts with `第`. -/
theorem startsWith_dai (x : List Char) : startsWithList ('第' :: x) ['第'] = true := by
  simp [startsWithList, startsWithList_nil]

/-- `巻` occurs in a matched `match[0]` exactly when the matched unit is
`巻` (the group holds only digits and dots, the optional prefix only `第`). -/
theorem mem_kan_shape (dai : Bool) (unit : Char) (m2 : List Char)
    (hmem : ∀ c ∈ m2, c.isDigit = true ∨ c = '.') :
    ('巻' ∈ (if dai then ['第'] else []) ++ (m2 ++ [unit])) ↔ unit = '巻' := by
  constructor
  · intro h
    rcases List.mem_append.mp h with h | h
    · cases dai with
      | true =>
        simp only [if_true, List.mem_singleton] at h
        exact absurd h (by decide)
      | false => simp at h
    · rcases List.mem_append.mp h with h | h
      · rcases hmem _ h with hd | hd
        · exact absurd hd (by decide)
        · exact absurd hd (by decide)
      · simp only [List.mem_singleton] at h
        exact h.symm
  · intro h
    subst h
    simp

/-- C7 core refinement: `sanitizeFolderName` in volume-only mode equals the
specification-worded volume-only sanitization, for every title and width. -/
theorem sanitize_volume_refines (vd : Nat) (name : String) :
    sanitizeFolderName true vd name = sanitizeVolumeSpec vd name := by
  cases h1 : execScan true '巻' name.data with
  | some m =>
    obtain ⟨hm1, hne, hhead, hmem⟩ := execScan_shape true '巻' name.data m h1
    simp only [if_true] at hm1
    have hstart : startsWithList m.1 ['第'] = true := by
      rw [hm1, List.singleton_append]
      exact startsWith_dai _
    have hcont : containsSub m.1 ['巻'] = true :=
      (containsSub_single_iff _ _).mpr (by rw [hm1]; exact (mem_kan_shape true '巻' m.2 hmem).mpr rfl)
    simp only [sanitizeFolderName, sanitizeVolumeSpec, firstVolMatch, volPatterns,
      List.findSome?, h1, hstart, hcont, if_true]
    by_cases hdot : '.' ∈ m.2 <;> simp [hdot]
  | none =>
    cases h2 : execScan true '話' name.data with
    | some m =>
      obtain ⟨hm1, hne, hhead, hmem⟩ := execScan_shape true '話' name.data m h2
      simp only [if_true] at hm1
      have hstart : startsWithList m.1 ['第'] = true := by
        rw [hm1, List.singleton_append]
        exact startsWith_dai _
      have hcont : containsSub m.1 ['巻'] = false := by
        rw [Bool.eq_false_iff]
        intro hc
        have hm := (containsSub_single_iff _ _).mp hc
        rw [hm1] at hm
        have := (mem_kan_shape true '話' m.2 hmem).mp (by simpa using hm)
        exact absurd this (by decide)
      simp only [sanitizeFolderName, sanitizeVolumeSpec, firstVolMatch, volPatterns,
        List.findSome?, h1, h2, hstart, hcont, if_true, Bool.false_eq_true, if_false]
      by_cases hdot : '.' ∈ m.2 <;> simp [hdot]
    | none =>
      cases h3 : execScan false '巻' name.data with
      | some m =>
        obtain ⟨hm1, hne, hhead, hmem⟩ := execScan_shape false '巻' name.data m h3
        simp only [Bool.false_eq_true, if_false, List.nil_append] at hm1
        have hstart : startsWithList m.1 ['第'] = false := by
          rw [hm1]
          exact startsWith_nodai m.2 '巻' hne hhead
        have hcont : containsSub m.1 ['巻'] = true :=
          (containsSub_single_iff _ _).mpr (by
            rw [hm1]
            have := (mem_kan_shape false '巻' m.2 hmem).mpr rfl
            exact this)
        simp only [sanitizeFolderName, sanitizeVolumeSpec, firstVolMatch, volPatterns,
          List.findSome?, h1, h2, h3, hstart, hcont, if_true, Bool.false_eq_true, if_false]
        by_cases hdot : '.' ∈ m.2 <;> simp [hdot]
      | none =>
        cases h4 : execScan false '話' name.data with
        | some m =>
          obtain ⟨hm1, hne, hhead, hmem⟩ := execScan_shape false '話' name.data m h4
          simp only [Bool.false_eq_true, if_false, List.nil_append] at hm1
          have hstart : startsWithList m.1 ['第'] = false := by
            rw [hm1]
            exact startsWith_nodai m.2 '話' hne hhead
          have hcont : containsSub m.1 ['巻'] = false := by
            rw [Bool.eq_false_iff]
            intro hc
            have hm := (containsSub_single_iff _ _).mp hc
            rw [hm1] at hm
            have := (mem_kan_shape false '話' m.2 hmem).mp (by simpa using hm)
            exact absurd this (by decide)
          simp only [sanitizeFolderName, sanitizeVolumeSpec, firstVolMatch, volPatterns,
            List.findSome?, h1, h2, h3, h4, hstart, hcont, if_true, Bool.false_eq_true, if_false]
          by_cases hdot : '.' ∈ m.2 <;> simp [hdot]
        | none =>
          simp only [sanitizeFolderName, sanitizeVolumeSpec, firstVolMatch, volPatterns,
            List.findSome?, h1, h2, h3, h4, if_true]

/-- C7: volume-only sanitization tries `第N巻`, `第N話`, `N巻`, `N話` in
priority order, keeps a decimal `N` verbatim and zero-pads a whole `N` to
the configured width ("第12巻" stays at width 2, becomes "第0012巻" at width
4, "3.5話" is unchanged at every width), and falls back to default-mode
sanitization when no pattern matches. -/
theorem c7_volume_only :
    (∀ (vd : Nat) (name : String),
      sanitizeFolderName true vd name = sanitizeVolumeSpec vd name)
    ∧ sanitizeFolderName true 2 "第12巻" = "第12巻"
    ∧ sanitizeFolderName true 4 "第12巻" = "第0012巻"
    ∧ (∀ vd : Nat, sanitizeFolderName true vd "3.5話" = "3.5話")
    ∧ (∀ (vd : Nat) (name : String), firstVolMatch name.data = none →
        sanitizeFolderName true vd name = sanitizeFolderName false vd name) := by
  refine ⟨sanitize_volume_refines, by decide, by decide, fun vd => rfl, ?_⟩
  intro vd name h
  simp [sanitizeFolderName, h]

/-- Witness for C7 at a title with no volume pattern. -/
theorem c7_witness :
    sanitizeFolderName true 2 "hello world" = sanitizeFolderName false 2 "hello world" :=
  c7_volume_only.2.2.2.2 2 "hello world" rfl

/-- A JS-whitespace character is not replaced by `_`, is not a digit, and is
not `第`. -/
theorem ws_char_facts (c : Char) (h : jsWhitespace c = true) :
    replaceBadChar c = c ∧ c.isDigit = false ∧ c ≠ '第' := by
  simp only [jsWhitespace, Bool.or_eq_true, beq_iff_eq] at h
  casesm* _ ∨ _
  all_goals (subst_vars; decide)

/-- No volume pattern can match a title containing neither a digit nor
`第`. -/
theorem execScan_none_of (l : List Char) (h : ∀ c ∈ l, c.isDigit = false ∧ c ≠ '第') :
    ∀ (dai : Bool) (unit : Char), execScan dai unit l = none := by
  induction l with
  | nil => intro dai unit; rfl
  | cons c r ih =>
    intro dai unit
    have hc := h c (List.mem_cons_self c r)
    have hr : ∀ x ∈ r, x.isDigit = false ∧ x ≠ '第' :=
      fun x hx => h x (List.mem_cons_of_mem c hx)
    have htry : tryAt dai unit (c :: r) = none := by
      cases dai with
      | false =>
        have htw : (c :: r).takeWhile Char.isDigit = [] := by
          simp [List.takeWhile_cons, hc.1]
        simp [tryAt, matchNumUnit, htw]
      | true =>
        have : ¬ (c :: r).head? = some '第' := by
          simp only [List.head?_cons, Option.some.injEq]
          exact hc.2
        rw [tryAt, if_neg this]
    rw [execScan, htry]
    exact ih hr dai unit

/-- Collapsing a run of whitespace yields only spaces. -/
theorem collapseWs_all_space (l : List Char) (h : ∀ c ∈ l, jsWhitespace c = true) :
    ∀ b, ∀ x ∈ collapseWsAux b l, x = ' ' := by
  induction l with
  | nil => intro b x hx; simp [collapseWsAux] at hx
  | cons c r ih =>
    intro b x hx
    have hc := h c (List.mem_cons_self c r)
    have hr : ∀ y ∈ r, jsWhitespace y = true := fun y hy => h y (List.mem_cons_of_mem c hy)
    rw [collapseWsAux] at hx
    rw [if_pos hc] at hx
    cases b with
    | true => exact ih hr true x (by simpa using hx)
    | false =>
      rcases List.mem_cons.mp (by simpa using hx) with rfl | hx'
      · rfl
      · exact ih hr true x hx'

/-- Trimming an all-whitespace list leaves nothing. -/
theorem trimJs_all_ws (l : List Char) (h : ∀ c ∈ l, jsWhitespace c = true) :
    trimJs l = [] := by
  have h1 : l.dropWhile jsWhitespace = [] := by
    rw [List.dropWhile_eq_nil_iff]
    exact fun x hx => h x hx
  rw [trimJs, h1]
  rfl

/-- Default-mode sanitization of an all-whitespace title is empty. -/
theorem defaultSanitize_all_ws (name : String) (h : ∀ c ∈ name.data, jsWhitespace c = true) :
    defaultSanitize name = "" := by
  have hmapws : ∀ x ∈ name.data.map replaceBadChar, jsWhitespace x = true := by
    intro x hx
    obtain ⟨c, hc, rfl⟩ := List.mem_map.mp hx
    rw [(ws_char_facts c (h c hc)).1]
    exact h c hc
  have hcol := collapseWs_all_space _ hmapws false
  have hcolws : ∀ x ∈ collapseWsAux false (name.data.map replaceBadChar),
      jsWhitespace x = true := by
    intro x hx
    rw [hcol x hx]
    decide
  rw [defaultSanitize, trimJs_all_ws _ hcolws]

/-- C10: a title consisting only of whitespace (the empty title included)
sanitizes to the empty string in both modes, so its directory-mode target is
the run's base directory itself and its archive-mode target is
`<base>/.zip`. -/
theorem c10_whitespace_title (name : String) (vd : Nat) (vol : Bool) (base : String)
    (h : ∀ c ∈ name.data, jsWhitespace c = true) :
    sanitizeFolderName vol vd name = ""
    ∧ pathJoin base (sanitizeFolderName vol vd name) = base
    ∧ pathJoin base (sanitizeFolderName vol vd name ++ ".zip") = base ++ "/.zip" := by
  have hfacts : ∀ c ∈ name.data, c.isDigit = false ∧ c ≠ '第' :=
    fun c hc => (ws_char_facts c (h c hc)).2
  have hnone : firstVolMatch name.data = none := by
    simp [firstVolMatch, volPatterns, List.findSome?, execScan_none_of name.data hfacts]
  have hs : sanitizeFolderName vol vd name = "" := by
    cases vol with
    | false => exact defaultSanitize_all_ws name h
    | true =>
      rw [sanitizeFolderName]
      simp only [if_true, hnone]
      exact defaultSanitize_all_ws name h
  refine ⟨hs, ?_, ?_⟩
  · rw [hs]
    rfl
  · rw [hs]
    show pathJoin base ("" ++ ".zip") = base ++ "/.zip"
    have : ("" ++ ".zip" : String) = ".zip" := by decide
    rw [this, pathJoin, if_neg (by decide), String.append_assoc]
    congr 1

/-- Witness for C10 at a two-space title. -/
theorem c10_witness :
    sanitizeFolderName true 2 "  " = ""
    ∧ pathJoin "downloads/123" (sanitizeFolderName true 2 "  ") = "downloads/123"
    ∧ pathJoin "downloads/123" (sanitizeFolderName true 2 "  " ++ ".zip")
        = "downloads/123" ++ "/.zip" :=
  c10_whitespace_title "  " 2 true "downloads/123" (by decide)

end NoteScraper
